import Mathlib

/-!
Shallow embedding of `Huckel_Solver.py`, a general Hückel solver for linear,
cyclic and Platonic-solid π-systems.

Matrices are embedded as total functions `ℕ → ℕ → ℚ` together with an explicit
size, built exactly as the Python code builds its numpy arrays: a zero (or
constant) base followed by a sequence of single-entry assignments, so that
later writes overwrite earlier ones just as in the source.  The numpy
eigenvalue routine `np.linalg.eigvals` is an external library primitive; where
a claim needs eigenvalues we either characterise them directly from the matrix
(via the defining equation `M v = x v`) or take the eigensolver as an explicit
function parameter.
-/

/-- A Hückel matrix, embedded as a total function on indices; entries outside
the `n × n` square are irrelevant to every claim. -/
abbrev Mat := ℕ → ℕ → ℚ

/-- A single numpy-style element assignment `m[i, j] = v`. -/
def update2 (m : Mat) (i j : ℕ) (v : ℚ) : Mat :=
  fun a b => if a = i ∧ b = j then v else m a b

/-- `np.zeros((n, n))`: the all-zero base matrix. -/
def zeros : Mat := fun _ _ => 0

/-- Module-level global `alpha = 0`. -/
def alpha : ℚ := 0

/-- Module-level global `beta = -1`. -/
def beta : ℚ := -1

/-- `Huckel_Solver_linear_n_polyene`: the Hückel matrix of a linear polyene
with `n` carbons.  The module globals `alpha`/`beta` that the Python function
reads are passed as the parameters `alphaG`/`betaG`. -/
def Huckel_Solver_linear_n_polyene (n : ℕ) (alphaG betaG : ℚ) : Mat :=
  -- base_matrix_linear = np.zeros((n, n))
  -- for i in range(n): base_matrix_linear[i, i] = alpha
  let m1 := (List.range n).foldl (fun m i => update2 m i i alphaG) zeros
  -- for i in range(1, n, 1): base_matrix_linear[i, i-1] = beta
  let m2 := (List.range' 1 (n - 1)).foldl (fun m i => update2 m i (i - 1) betaG) m1
  -- for i in range(1, n, 1): base_matrix_linear[i-1, i] = beta
  let m3 := (List.range' 1 (n - 1)).foldl (fun m i => update2 m (i - 1) i betaG) m2
  m3

/-- `Huckel_Solver_cyclic_n_polyene`: the Hückel matrix of a cyclic polyene
with `n` carbons; the same construction as the linear one followed by the two
wraparound assignments `[0, n-1] = beta` and `[n-1, 0] = beta`. -/
def Huckel_Solver_cyclic_n_polyene (n : ℕ) (alphaG betaG : ℚ) : Mat :=
  let m1 := (List.range n).foldl (fun m i => update2 m i i alphaG) zeros
  let m2 := (List.range' 1 (n - 1)).foldl (fun m i => update2 m i (i - 1) betaG) m1
  let m3 := (List.range' 1 (n - 1)).foldl (fun m i => update2 m (i - 1) i betaG) m2
  -- base_matrix_cyclic[0, n-1] = beta
  let m4 := update2 m3 0 (n - 1) betaG
  -- base_matrix_cyclic[n-1, 0] = beta
  update2 m4 (n - 1) 0 betaG

/-- Tetrahedron branch: `np.array` with every entry `beta`, then the diagonal
set to `alpha`. -/
def base_matrix_tetrahedron (alphaL betaL : ℚ) : Mat :=
  (List.range 4).foldl (fun m i => update2 m i i alphaL) (fun _ _ => betaL)

/-- Octahedron branch: `np.zeros((6,6)) + beta`, then for each `i` the
diagonal entry set to `alpha` and the antipodal entry `(i, 6-i-1)` set to 0. -/
def huckel_matrix_octahedron (alphaL betaL : ℚ) : Mat :=
  let base : Mat := fun a b => zeros a b + betaL
  (List.range 6).foldl
    (fun m i => update2 (update2 m i i alphaL) i (6 - i - 1) 0) base

/-- The fixed cube adjacency table `column_elem` of the source. -/
def column_elem : List (List ℕ) :=
  [[1, 2, 4], [0, 3, 5], [0, 3, 6], [1, 2, 7], [0, 5, 6],
   [1, 4, 7], [2, 4, 7], [3, 5, 6]]

/-- Cube branch: zero base, diagonal `alpha`, then for each row `i` the three
columns listed in `column_elem[i]` set to `beta`. -/
def base_matrix_cube (alphaL betaL : ℚ) : Mat :=
  let m1 := (List.range 8).foldl (fun m i => update2 m i i alphaL) zeros
  (List.range column_elem.length).foldl
    (fun m i =>
      let row := column_elem.getD i []
      update2 (update2 (update2 m i (row.getD 0 0) betaL) i (row.getD 1 0) betaL)
        i (row.getD 2 0) betaL) m1

/-- The fixed dodecahedron adjacency table `column_elem_dodec` of the source. -/
def column_elem_dodec : List (List ℕ) :=
  [[13, 14, 15], [4, 5, 12], [6, 13, 18], [7, 14, 19],
   [1, 10, 18], [1, 11, 19], [2, 10, 15], [3, 11, 15],
   [9, 13, 16], [8, 14, 17], [4, 6, 11], [5, 7, 10],
   [1, 16, 17], [0, 2, 8], [0, 3, 9], [0, 6, 7],
   [8, 12, 18], [9, 12, 19], [2, 4, 16], [3, 5, 17]]

/-- Dodecahedron branch: zero base, diagonal `alpha`, then for each row `i`
the three columns listed in `column_elem_dodec[i]` set to `beta`. -/
def base_matrix_dodec (alphaL betaL : ℚ) : Mat :=
  let m1 := (List.range 20).foldl (fun m i => update2 m i i alphaL) zeros
  (List.range column_elem_dodec.length).foldl
    (fun m i =>
      let row := column_elem_dodec.getD i []
      update2 (update2 (update2 m i (row.getD 0 0) betaL) i (row.getD 1 0) betaL)
        i (row.getD 2 0) betaL) m1

/-- `Huckel_Solver_Platonic_Solid`: dispatch on the (lower-cased) shape name.
The Python function receives the module globals (here `alphaG`, `betaG`) but
rebinds local variables `alpha = 0` and `beta = -1` that shadow them, so the
matrices it builds never depend on the globals.  The result is the matrix
together with its size, or `none` when the shape is unrecognised (including
the `"none"` quit sentinel, which exits without building a matrix). -/
def Huckel_Solver_Platonic_Solid (shape : String) (alphaG betaG : ℚ) :
    Option (ℕ × Mat) :=
  let alphaL : ℚ := 0
  let betaL : ℚ := -1
  if shape.toLower = "tetrahedron" then some (4, base_matrix_tetrahedron alphaL betaL)
  else if shape.toLower = "octahedron" then some (6, huckel_matrix_octahedron alphaL betaL)
  else if shape.toLower = "cube" then some (8, base_matrix_cube alphaL betaL)
  else if shape.toLower = "dodecahedron" then some (20, base_matrix_dodec alphaL betaL)
  else none

/-- The matrix-selection stage of `General_Huckel_Solver`: dispatch on the
(lower-cased) problem type, returning the built matrix with its size, or
`none` when the kind is unrecognised (including the `"exit"` sentinel); in the
`none` cases the Python loop re-prompts or exits and no matrix is built. -/
def General_Huckel_Solver_matrix (problem_type shape : String) (n : ℕ)
    (alphaG betaG : ℚ) : Option (ℕ × Mat) :=
  if problem_type.toLower = "linear" then
    some (n, Huckel_Solver_linear_n_polyene n alphaG betaG)
  else if problem_type.toLower = "cyclic" then
    some (n, Huckel_Solver_cyclic_n_polyene n alphaG betaG)
  else if problem_type.toLower = "platonic solid" then
    Huckel_Solver_Platonic_Solid shape alphaG betaG
  else none

/-- The size-prompting loop of the linear/cyclic builders: each element of
`inputs` is the result of attempting `int(num)` on one user input line (`none`
when `int` raised `ValueError`); the loop re-prompts on a parse failure and
breaks on the first successful parse, with no further validation. -/
def size_loop : List (Option Int) → Option Int
  | [] => none
  | none :: rest => size_loop rest
  | some n :: _ => some n

/-- The trace of the `n × n` matrix `m`. -/
def trace (m : Mat) (n : ℕ) : ℚ :=
  ((List.range n).map (fun i => m i i)).sum

/-- Rounding to three decimal places, modelling `float(Decimal("%.3f" % x))`. -/
def round3 (x : ℚ) : ℚ := (round (1000 * x) : ℤ) / 1000

/-- Python's lexicographic order on the two-element lists `[energy, count]`
that `sorted` sorts in `Degeneracy_count`. -/
def pairRel (p q : ℚ × ℕ) : Prop :=
  p.1 < q.1 ∨ (p.1 = q.1 ∧ p.2 ≤ q.2)

instance : DecidableRel pairRel := fun p q => by
  unfold pairRel; infer_instance

instance : IsTotal (ℚ × ℕ) pairRel :=
  ⟨fun p q => by
    unfold pairRel
    rcases lt_trichotomy p.1 q.1 with h | h | h
    · exact Or.inl (Or.inl h)
    · rcases Nat.le_total p.2 q.2 with h2 | h2
      · exact Or.inl (Or.inr ⟨h, h2⟩)
      · exact Or.inr (Or.inr ⟨h.symm, h2⟩)
    · exact Or.inr (Or.inl h)⟩

instance : IsTrans (ℚ × ℕ) pairRel :=
  ⟨fun p q r hpq hqr => by
    unfold pairRel at *
    rcases hpq with h1 | ⟨e1, c1⟩
    · rcases hqr with h2 | ⟨e2, _⟩
      · exact Or.inl (h1.trans h2)
      · exact Or.inl (e2 ▸ h1)
    · rcases hqr with h2 | ⟨e2, c2⟩
      · exact Or.inl (e1 ▸ h2)
      · exact Or.inr ⟨e1.trans e2, c1.trans c2⟩⟩

/-- The data rows of `Degeneracy_count`: round each eigenvalue to 3 decimals,
collect the distinct rounded values (`set(...)`), pair each with its
multiplicity, and sort (Python's `sorted` on `[energy, count]` lists). -/
def degen_rows (eval_list : List ℚ) : List (ℚ × ℕ) :=
  let nice_eval_list := eval_list.map round3
  let degeneracies := nice_eval_list.dedup.map
    (fun x => (x, nice_eval_list.count x))
  degeneracies.insertionSort pairRel

/-- `Degeneracy_count`: the header row `["Energy", "Degeneracy"]` followed by
the sorted energy/degeneracy rows. -/
def Degeneracy_count (eval_list : List ℚ) : (String × String) × List (ℚ × ℕ) :=
  (("Energy", "Degeneracy"), degen_rows eval_list)

/-- `"%.3f" % x`: fixed-point formatting with three decimal places. -/
def format3 (x : ℚ) : String :=
  let m : ℤ := round (1000 * x)
  let sign := if m < 0 then "-" else ""
  let ip := m.natAbs / 1000
  let fp := m.natAbs % 1000
  let fps :=
    if fp < 10 then "00" ++ toString fp
    else if fp < 100 then "0" ++ toString fp
    else toString fp
  sign ++ toString ip ++ "." ++ fps

/-- `get_evals`: the eigenvalues of the matrix, sorted ascending.  The dense
eigenvalue routine `np.linalg.eigvals` is an external numpy primitive, taken
here as the explicit function parameter `eigvals`. -/
def get_evals (eigvals : Mat → ℕ → List ℚ) (m : Mat) (n : ℕ) : List ℚ :=
  (eigvals m n).insertionSort (fun x y => x ≤ y)

/-- `x` is an eigenvalue of the `n × n` matrix `m`: some vector that is
nonzero on `{0, ..., n-1}` satisfies `m v = x v` row-wise. -/
def is_eigenvalue (m : Mat) (n : ℕ) (x : ℚ) : Prop :=
  ∃ v : ℕ → ℚ, (∃ i, i < n ∧ v i ≠ 0) ∧
    ∀ i, i < n → ((List.range n).map (fun j => m i j * v j)).sum = x * v i

/-- The report `General_Huckel_Solver` both prints and writes to the CSV
file: the degeneracy table and the sum-of-energies line. -/
structure Report where
  table : (String × String) × List (ℚ × ℕ)
  sum_line : String

/-- The reporting stage of `General_Huckel_Solver`: compute the eigenvalue
list once, format its sum, and build the degeneracy table. -/
def General_Huckel_Solver_report (eigvals : Mat → ℕ → List ℚ) (m : Mat)
    (n : ℕ) : Report :=
  let eval_list_fun := get_evals eigvals m n
  let eigenval_sum := format3 eval_list_fun.sum
  { table := Degeneracy_count eval_list_fun
    sum_line := "The sum of the Huckel energies is " ++ eigenval_sum }

/-- The table printed to the console: `final_list = Degeneracy_count()`. -/
def printed_table (eigvals : Mat → ℕ → List ℚ) (m : Mat) (n : ℕ) :
    (String × String) × List (ℚ × ℕ) :=
  Degeneracy_count (get_evals eigvals m n)

/-- The table written to the CSV file: the second, separate call
`Degeneracy_count()` in the write loop, on the same global matrix. -/
def csv_table (eigvals : Mat → ℕ → List ℚ) (m : Mat) (n : ℕ) :
    (String × String) × List (ℚ × ℕ) :=
  Degeneracy_count (get_evals eigvals m n)

/-! ### Characterisation of the fold-built matrices -/

theorem foldl_update2_diag (l : List ℕ) (m : Mat) (v : ℚ) (a b : ℕ) :
    (l.foldl (fun acc i => update2 acc i i v) m) a b
      = if a ∈ l ∧ a = b then v else m a b := by
  induction l generalizing m with
  | nil => simp
  | cons x xs ih =>
    rw [List.foldl_cons, ih]
    simp only [update2, List.mem_cons]
    by_cases hab : a = b
    · subst hab
      by_cases hx : a = x
      · subst hx
        by_cases hmem : a ∈ xs <;> simp [hmem]
      · simp [hx]
    · have hno : ¬(a = x ∧ b = x) := by
        rintro ⟨rfl, rfl⟩; exact hab rfl
      simp [hab, hno]

theorem foldl_update2_sub (l : List ℕ) (m : Mat) (v : ℚ) (a b : ℕ) :
    (l.foldl (fun acc i => update2 acc i (i - 1) v) m) a b
      = if a ∈ l ∧ b = a - 1 then v else m a b := by
  induction l generalizing m with
  | nil => simp
  | cons x xs ih =>
    rw [List.foldl_cons, ih]
    simp only [update2, List.mem_cons]
    by_cases h1 : b = a - 1
    · subst h1
      by_cases hx : a = x
      · subst hx
        by_cases hmem : a ∈ xs <;> simp [hmem]
      · simp [hx]
    · have hno : ¬(a = x ∧ b = x - 1) := by
        rintro ⟨rfl, rfl⟩; exact h1 rfl
      simp [h1, hno]

theorem foldl_update2_super (l : List ℕ) (m : Mat) (v : ℚ) (a b : ℕ) :
    (l.foldl (fun acc i => update2 acc (i - 1) i v) m) a b
      = if b ∈ l ∧ a = b - 1 then v else m a b := by
  induction l generalizing m with
  | nil => simp
  | cons x xs ih =>
    rw [List.foldl_cons, ih]
    simp only [update2, List.mem_cons]
    by_cases h1 : a = b - 1
    · subst h1
      by_cases hx : b = x
      · subst hx
        by_cases hmem : b ∈ xs <;> simp [hmem]
      · simp [hx]
    · have hno : ¬(a = x - 1 ∧ b = x) := by
        rintro ⟨rfl, rfl⟩; exact h1 rfl
      simp [h1, hno]

/-- Entry-wise description of the linear-polyene matrix: `β` on the first
super- and sub-diagonal, `α` on the diagonal, `0` elsewhere. -/
theorem linear_entry (n : ℕ) (aG bG : ℚ) (a b : ℕ) :
    Huckel_Solver_linear_n_polyene n aG bG a b =
      if 1 ≤ b ∧ b < n ∧ a = b - 1 then bG
      else if 1 ≤ a ∧ a < n ∧ b = a - 1 then bG
      else if a < n ∧ a = b then aG
      else 0 := by
  simp only [Huckel_Solver_linear_n_polyene]
  rw [foldl_update2_super, foldl_update2_sub, foldl_update2_diag]
  simp only [List.mem_range'_1, List.mem_range, zeros]
  split_ifs <;> first | rfl | omega

/-- The cyclic-polyene matrix is the linear one with the two wraparound
assignments on top (the second one written last). -/
theorem cyclic_eq_update (n : ℕ) (aG bG : ℚ) :
    Huckel_Solver_cyclic_n_polyene n aG bG =
      update2 (update2 (Huckel_Solver_linear_n_polyene n aG bG) 0 (n - 1) bG)
        (n - 1) 0 bG := rfl

theorem cyclic_entry (n : ℕ) (aG bG : ℚ) (a b : ℕ) :
    Huckel_Solver_cyclic_n_polyene n aG bG a b =
      if a = n - 1 ∧ b = 0 then bG
      else if a = 0 ∧ b = n - 1 then bG
      else Huckel_Solver_linear_n_polyene n aG bG a b := by
  rw [cyclic_eq_update]
  simp only [update2]

theorem linear_symm_entry (n : ℕ) (aG bG : ℚ) (a b : ℕ) :
    Huckel_Solver_linear_n_polyene n aG bG a b =
      Huckel_Solver_linear_n_polyene n aG bG b a := by
  rw [linear_entry, linear_entry]
  split_ifs <;> first | rfl | omega

theorem cyclic_symm_entry (n : ℕ) (aG bG : ℚ) (a b : ℕ) :
    Huckel_Solver_cyclic_n_polyene n aG bG a b =
      Huckel_Solver_cyclic_n_polyene n aG bG b a := by
  rw [cyclic_entry, cyclic_entry]
  split_ifs with h1 h2 h3 h4 h5 h6 <;>
    first
      | rfl
      | omega
      | exact linear_symm_entry n aG bG a b

/-- Every diagonal entry of the linear matrix is `α`. -/
theorem linear_diag (n : ℕ) (aG bG : ℚ) (i : ℕ) (hi : i < n) :
    Huckel_Solver_linear_n_polyene n aG bG i i = aG := by
  rw [linear_entry]
  split_ifs <;> first | rfl | omega

theorem trace_linear (n : ℕ) (aG bG : ℚ) :
    trace (Huckel_Solver_linear_n_polyene n aG bG) n = n * aG := by
  unfold trace
  rw [List.map_congr_left (fun i hi =>
    linear_diag n aG bG i (List.mem_range.mp hi))]
  rw [List.map_const', List.sum_replicate, List.length_range, nsmul_eq_mul]

/-- For `n ≥ 2` the wraparound assignments of the cyclic matrix miss the
diagonal, so every diagonal entry is `α`. -/
theorem cyclic_diag (n : ℕ) (aG bG : ℚ) (hn : 2 ≤ n) (i : ℕ) (hi : i < n) :
    Huckel_Solver_cyclic_n_polyene n aG bG i i = aG := by
  rw [cyclic_entry]
  split_ifs <;> first | exact linear_diag n aG bG i hi | omega

theorem trace_cyclic (n : ℕ) (aG bG : ℚ) (hn : 2 ≤ n) :
    trace (Huckel_Solver_cyclic_n_polyene n aG bG) n = n * aG := by
  unfold trace
  rw [List.map_congr_left (fun i hi =>
    cyclic_diag n aG bG hn i (List.mem_range.mp hi))]
  rw [List.map_const', List.sum_replicate, List.length_range, nsmul_eq_mul]

/-- A matrix whose diagonal entries up to `n` all equal `c` has trace `n·c`. -/
theorem trace_const_diag (m : Mat) (n : ℕ) (c : ℚ)
    (h : ∀ i, i < n → m i i = c) : trace m n = n * c := by
  unfold trace
  rw [List.map_congr_left (fun i hi => h i (List.mem_range.mp hi))]
  rw [List.map_const', List.sum_replicate, List.length_range, nsmul_eq_mul]

/-- The all-`β` octahedron base `np.zeros((6,6)) + beta`, with the addition
to the zero matrix carried out. -/
theorem octa_base_eq :
    (fun a b => zeros a b + (-1 : ℚ)) = (fun _ _ => (-1 : ℚ)) := by
  funext a b
  simp [zeros]

/-- The octahedron matrix with its base normalised to the constant `-1`
function, so that entries evaluate without rational addition. -/
theorem octa_eq_norm :
    huckel_matrix_octahedron 0 (-1) =
      (List.range 6).foldl
        (fun m i => update2 (update2 m i i 0) i (6 - i - 1) 0)
        (fun _ _ => (-1 : ℚ)) := by
  simp only [huckel_matrix_octahedron]
  rw [octa_base_eq]

/-! ### Claims -/

/-- C1, counterexample: for the cyclic topology with the valid size `n = 1`
and the default parameters, the trace of the built matrix is `β = -1`, not
`n·α = 0`: the claimed trace identity fails for `cyclic(1)`. -/
theorem claim_C1_counterexample :
    trace (Huckel_Solver_cyclic_n_polyene 1 alpha beta) 1 ≠ 1 * alpha := by
  rw [trace_const_diag (Huckel_Solver_cyclic_n_polyene 1 alpha beta) 1 beta
    (by decide)]
  norm_num [alpha, beta]

/-- C1 (amended): the trace of the built matrix equals `n·α` for the linear
topology at every size, for the cyclic topology at every size `n ≥ 2`, and
for the four Platonic solids (whose local `α` is the fixed `0`); for
`cyclic(1)` the wraparound write lands on the diagonal and the identity
fails. -/
theorem claim_C1_amended :
    ∀ (aG bG : ℚ) (n : ℕ),
      trace (Huckel_Solver_linear_n_polyene n aG bG) n = n * aG ∧
      (2 ≤ n → trace (Huckel_Solver_cyclic_n_polyene n aG bG) n = n * aG) ∧
      trace (base_matrix_tetrahedron 0 (-1)) 4 = 4 * (0 : ℚ) ∧
      trace (huckel_matrix_octahedron 0 (-1)) 6 = 6 * (0 : ℚ) ∧
      trace (base_matrix_cube 0 (-1)) 8 = 8 * (0 : ℚ) ∧
      trace (base_matrix_dodec 0 (-1)) 20 = 20 * (0 : ℚ) :=
  fun aG bG n =>
    ⟨trace_linear n aG bG, fun hn => trace_cyclic n aG bG hn,
     by rw [trace_const_diag _ 4 0 (by decide)]; norm_num,
     by
       rw [trace_const_diag _ 6 0 (by simp only [octa_eq_norm]; decide)]
       norm_num,
     by rw [trace_const_diag _ 8 0 (by decide)]; norm_num,
     by rw [trace_const_diag _ 20 0 (by decide)]; norm_num⟩

/-- C1 witness: the amended trace identity evaluated at `n = 3` with the
default module globals. -/
theorem claim_C1_amended_witness :
    trace (Huckel_Solver_linear_n_polyene 3 alpha beta) 3 = 3 * alpha ∧
    trace (Huckel_Solver_cyclic_n_polyene 3 alpha beta) 3 = 3 * alpha :=
  ⟨(claim_C1_amended alpha beta 3).1,
   (claim_C1_amended alpha beta 3).2.1 (by decide)⟩

/-- C2: in each Platonic-solid matrix (built with the local `α = 0`,
`β = -1`), every row has exactly the right number of off-diagonal entries
equal to `β` — 3 for the tetrahedron, 4 for the octahedron, 3 for the cube,
3 for the dodecahedron — and all remaining off-diagonal entries equal `0`. -/
theorem claim_C2_platonic_degrees :
    (∀ i : Fin 4,
      ((List.range 4).countP
        (fun j => decide (j ≠ i.val) && decide (base_matrix_tetrahedron 0 (-1) i.val j = -1))) = 3 ∧
      ((List.range 4).countP
        (fun j => decide (j ≠ i.val) && decide (base_matrix_tetrahedron 0 (-1) i.val j = 0))) = 0) ∧
    (∀ i : Fin 6,
      ((List.range 6).countP
        (fun j => decide (j ≠ i.val) && decide (huckel_matrix_octahedron 0 (-1) i.val j = -1))) = 4 ∧
      ((List.range 6).countP
        (fun j => decide (j ≠ i.val) && decide (huckel_matrix_octahedron 0 (-1) i.val j = 0))) = 1) ∧
    (∀ i : Fin 8,
      ((List.range 8).countP
        (fun j => decide (j ≠ i.val) && decide (base_matrix_cube 0 (-1) i.val j = -1))) = 3 ∧
      ((List.range 8).countP
        (fun j => decide (j ≠ i.val) && decide (base_matrix_cube 0 (-1) i.val j = 0))) = 4) ∧
    (∀ i : Fin 20,
      ((List.range 20).countP
        (fun j => decide (j ≠ i.val) && decide (base_matrix_dodec 0 (-1) i.val j = -1))) = 3 ∧
      ((List.range 20).countP
        (fun j => decide (j ≠ i.val) && decide (base_matrix_dodec 0 (-1) i.val j = 0))) = 16) :=
  ⟨by decide, by simp only [octa_eq_norm]; decide, by decide, by decide⟩

/-- C3: every built matrix is symmetric — the linear and cyclic matrices for
all sizes and parameters (entry-wise over all indices), and the four
Platonic-solid matrices over their index squares. -/
theorem claim_C3_symmetric :
    (∀ (aG bG : ℚ) (n a b : ℕ),
      Huckel_Solver_linear_n_polyene n aG bG a b =
        Huckel_Solver_linear_n_polyene n aG bG b a ∧
      Huckel_Solver_cyclic_n_polyene n aG bG a b =
        Huckel_Solver_cyclic_n_polyene n aG bG b a) ∧
    (∀ i j : Fin 4,
      base_matrix_tetrahedron 0 (-1) i.val j.val =
        base_matrix_tetrahedron 0 (-1) j.val i.val) ∧
    (∀ i j : Fin 6,
      huckel_matrix_octahedron 0 (-1) i.val j.val =
        huckel_matrix_octahedron 0 (-1) j.val i.val) ∧
    (∀ i j : Fin 8,
      base_matrix_cube 0 (-1) i.val j.val =
        base_matrix_cube 0 (-1) j.val i.val) ∧
    (∀ i j : Fin 20,
      base_matrix_dodec 0 (-1) i.val j.val =
        base_matrix_dodec 0 (-1) j.val i.val) :=
  ⟨fun aG bG n a b =>
    ⟨linear_symm_entry n aG bG a b, cyclic_symm_entry n aG bG a b⟩,
   by decide, by simp only [octa_eq_norm]; decide, by decide, by decide⟩

/-- C4: for the cyclic topology with `n = 1` the wraparound assignment to
`(n-1, 0) = (0, 0)` overwrites the diagonal, so the single entry of the
matrix is `β` and its trace is `β`, not `n·α`. -/
theorem claim_C4_cyclic_one :
    ∀ aG bG : ℚ,
      Huckel_Solver_cyclic_n_polyene 1 aG bG 0 0 = bG ∧
      trace (Huckel_Solver_cyclic_n_polyene 1 aG bG) 1 = bG := by
  intro aG bG
  have h : Huckel_Solver_cyclic_n_polyene 1 aG bG 0 0 = bG := by
    rw [cyclic_entry]; norm_num
  exact ⟨h, by simp [trace, List.range_succ, h]⟩

/-- C5, counterexample: the size loop accepts the parsed integer `0`, which
is not positive, and the linear builder then returns the (empty) `0 × 0`
zero matrix — no `InvalidSize` failure occurs for a non-positive integer. -/
theorem claim_C5_counterexample :
    size_loop [some 0] = some 0 ∧ ¬(0 < (0 : Int)) ∧
    Huckel_Solver_linear_n_polyene 0 alpha beta = zeros :=
  ⟨rfl, by decide, rfl⟩

/-- The prompting loop skips every failed parse and returns the first
successfully parsed integer, whatever its sign. -/
theorem size_loop_skips_failures (pre rest : List (Option Int)) (n : Int) :
    (∀ x ∈ pre, x = none) → size_loop (pre ++ some n :: rest) = some n := by
  induction pre with
  | nil => intro _; rfl
  | cons x xs ih =>
    intro h
    have hx : x = none := h x (List.mem_cons_self x xs)
    subst hx
    exact ih (fun y hy => h y (List.mem_cons_of_mem _ hy))

/-- C5 (amended): for linear and cyclic topologies the size loop rejects
(re-prompts on) exactly the inputs `int()` fails to parse; the first
successfully parsed integer is accepted with no positivity check, so zero
and negative sizes reach the builder (size `0` yields the empty matrix;
negative sizes are `np.zeros` errors outside the loop, not `InvalidSize`). -/
theorem claim_C5_amended :
    ∀ (pre rest : List (Option Int)) (n : Int) (aG bG : ℚ),
      (∀ x ∈ pre, x = none) →
      size_loop (pre ++ some n :: rest) = some n ∧
      Huckel_Solver_linear_n_polyene 0 aG bG = zeros :=
  fun pre rest n _ _ h => ⟨size_loop_skips_failures pre rest n h, rfl⟩

/-- C5 witness: after one failed parse the loop accepts the negative integer
`-3`. -/
theorem claim_C5_amended_witness :
    size_loop ([none] ++ some (-3) :: []) = some (-3) ∧
    Huckel_Solver_linear_n_polyene 0 alpha beta = zeros :=
  claim_C5_amended [none] [] (-3) alpha beta (by simp)

/-- C8: the selection stage yields a matrix exactly for the recognised
kinds — `linear`, `cyclic`, and `platonic solid` refined by one of the four
solid names (case-insensitively); for every other input, including the quit
sentinels, no matrix is built. -/
theorem claim_C8_unknown_topology :
    ∀ (problem_type shape : String) (n : ℕ) (aG bG : ℚ),
      (General_Huckel_Solver_matrix problem_type shape n aG bG).isSome = true ↔
        (problem_type.toLower = "linear" ∨ problem_type.toLower = "cyclic" ∨
          (problem_type.toLower = "platonic solid" ∧
            (shape.toLower = "tetrahedron" ∨ shape.toLower = "octahedron" ∨
              shape.toLower = "cube" ∨ shape.toLower = "dodecahedron"))) := by
  intro p s n aG bG
  unfold General_Huckel_Solver_matrix Huckel_Solver_Platonic_Solid
  split_ifs <;> simp_all

/-- C9: the Platonic-solid builder rebinds `alpha = 0` and `beta = -1`
locally, shadowing the module globals, so its result is the same whatever
the globals are; the linear and cyclic builders do read the globals, and
changing `α` from its default changes their matrices. -/
theorem claim_C9_shadowing :
    (∀ (shape : String) (aG bG aG2 bG2 : ℚ),
      Huckel_Solver_Platonic_Solid shape aG bG =
        Huckel_Solver_Platonic_Solid shape aG2 bG2) ∧
    Huckel_Solver_linear_n_polyene 2 1 (-1) 0 0 ≠
      Huckel_Solver_linear_n_polyene 2 alpha beta 0 0 ∧
    Huckel_Solver_cyclic_n_polyene 3 1 (-1) 0 0 ≠
      Huckel_Solver_cyclic_n_polyene 3 alpha beta 0 0 :=
  ⟨fun _ _ _ _ _ => rfl, by decide, by decide⟩

/-- C10: the pipeline is deterministic — with the eigensolver fixed as a
function, identical inputs give identical reports, and the printed table and
the CSV table are the same `Degeneracy_count` of the same matrix. -/
theorem claim_C10_deterministic :
    ∀ (eigvals : Mat → ℕ → List ℚ) (m : Mat) (n : ℕ),
      General_Huckel_Solver_report eigvals m n =
        General_Huckel_Solver_report eigvals m n ∧
      printed_table eigvals m n = csv_table eigvals m n ∧
      (General_Huckel_Solver_report eigvals m n).table =
        printed_table eigvals m n :=
  fun _ _ _ => ⟨rfl, rfl, rfl⟩

/-- The unsorted degeneracy pairs: each distinct rounded energy with its
multiplicity. -/
theorem degen_rows_perm (l : List ℚ) :
    List.Perm (degen_rows l) ((l.map round3).dedup.map
      (fun x => (x, (l.map round3).count x))) := by
  unfold degen_rows
  exact List.perm_insertionSort pairRel _

/-- C6: for every list of energies, the degeneracy reduction has pairwise
distinct rounded-energy keys, rows strictly ascending in energy, and
degeneracy counts summing to the length of the input list. -/
theorem claim_C6_degeneracy :
    ∀ eval_list : List ℚ,
      ((degen_rows eval_list).map Prod.fst).Nodup ∧
      (degen_rows eval_list).Pairwise (fun p q => p.1 < q.1) ∧
      ((degen_rows eval_list).map Prod.snd).sum = eval_list.length := by
  intro l
  have hperm := degen_rows_perm l
  have hfst : ((l.map round3).dedup.map
      (fun x => (x, (l.map round3).count x))).map Prod.fst
        = (l.map round3).dedup := by
    rw [List.map_map]
    show List.map (fun x => x) (l.map round3).dedup = (l.map round3).dedup
    exact List.map_id' _
  have h1 : ((degen_rows l).map Prod.fst).Nodup := by
    apply ((hperm.map Prod.fst).nodup_iff).mpr
    rw [hfst]
    exact List.nodup_dedup _
  refine ⟨h1, ?_, ?_⟩
  · have hs : (degen_rows l).Pairwise pairRel := by
      unfold degen_rows
      exact List.sorted_insertionSort pairRel _
    have hne : (degen_rows l).Pairwise (fun p q => p.1 ≠ q.1) :=
      List.pairwise_map.mp h1
    exact (hs.and hne).imp (fun h => by
      rcases h with ⟨hlt | ⟨heq, _⟩, hne2⟩
      · exact hlt
      · exact absurd heq hne2)
  · rw [(hperm.map Prod.snd).sum_eq]
    rw [List.map_map]
    rw [show (Prod.snd ∘ fun x => (x, (l.map round3).count x))
      = fun x => (l.map round3).count x from rfl]
    rw [List.sum_map_count_dedup_eq_length, List.length_map]

/-- The four entries of the `linear(2)` matrix with default parameters. -/
theorem M2_entry_00 : Huckel_Solver_linear_n_polyene 2 alpha beta 0 0 = 0 := by
  decide

theorem M2_entry_01 :
    Huckel_Solver_linear_n_polyene 2 alpha beta 0 1 = -1 := by decide

theorem M2_entry_10 :
    Huckel_Solver_linear_n_polyene 2 alpha beta 1 0 = -1 := by decide

theorem M2_entry_11 :
    Huckel_Solver_linear_n_polyene 2 alpha beta 1 1 = 0 := by decide

/-- The eigenvalues of the `linear(2)` matrix are exactly `1` and `-1`. -/
theorem M2_eigenvalues (x : ℚ) :
    is_eigenvalue (Huckel_Solver_linear_n_polyene 2 alpha beta) 2 x ↔
      x = 1 ∨ x = -1 := by
  have hr2 : List.range 2 = [0, 1] := rfl
  constructor
  · rintro ⟨v, ⟨i, hi, hvi⟩, heq⟩
    have h0 := heq 0 (by norm_num)
    have h1 := heq 1 (by norm_num)
    rw [hr2] at h0 h1
    simp only [List.map_cons, List.map_nil, List.sum_cons, List.sum_nil,
      add_zero, M2_entry_00, M2_entry_01, M2_entry_10, M2_entry_11] at h0 h1
    have e0 : -v 1 = x * v 0 := by linarith
    have e1 : -v 0 = x * v 1 := by linarith
    have hx2 : x * x * v 0 = v 0 := by
      calc x * x * v 0 = x * (x * v 0) := by ring
        _ = x * (-v 1) := by rw [← e0]
        _ = -(x * v 1) := by ring
        _ = -(-v 0) := by rw [← e1]
        _ = v 0 := by ring
    have hx2' : x * x * v 1 = v 1 := by
      calc x * x * v 1 = x * (x * v 1) := by ring
        _ = x * (-v 0) := by rw [← e1]
        _ = -(x * v 0) := by ring
        _ = -(-v 1) := by rw [← e0]
        _ = v 1 := by ring
    have hx : x * x = 1 := by
      have hi2 : i = 0 ∨ i = 1 := by omega
      rcases hi2 with rfl | rfl
      · have hz : (x * x - 1) * v 0 = 0 := by linear_combination hx2
        rcases mul_eq_zero.mp hz with h | h
        · linarith [h]
        · exact absurd h hvi
      · have hz : (x * x - 1) * v 1 = 0 := by linear_combination hx2'
        rcases mul_eq_zero.mp hz with h | h
        · linarith [h]
        · exact absurd h hvi
    have hfac : (x - 1) * (x + 1) = 0 := by linear_combination hx
    rcases mul_eq_zero.mp hfac with h | h
    · exact Or.inl (by linarith)
    · exact Or.inr (by linarith)
  · rintro (rfl | rfl)
    · refine ⟨fun i => if i = 0 then 1 else -1, ⟨0, by norm_num, by norm_num⟩, ?_⟩
      intro i hi
      have hi2 : i = 0 ∨ i = 1 := by omega
      rcases hi2 with rfl | rfl <;>
        · rw [hr2]
          simp [M2_entry_00, M2_entry_01, M2_entry_10, M2_entry_11]
    · refine ⟨fun _ => 1, ⟨0, by norm_num, by norm_num⟩, ?_⟩
      intro i hi
      have hi2 : i = 0 ∨ i = 1 := by omega
      rcases hi2 with rfl | rfl <;>
        · rw [hr2]
          simp [M2_entry_00, M2_entry_01, M2_entry_10, M2_entry_11]

theorem round3_one : round3 1 = 1 := by
  unfold round3
  rw [show ((1000 : ℚ) * 1) = ((1000 : ℤ) : ℚ) by norm_num]
  rw [round_intCast]
  norm_num

theorem round3_neg_one : round3 (-1) = -1 := by
  unfold round3
  rw [show ((1000 : ℚ) * (-1)) = ((-1000 : ℤ) : ℚ) by norm_num]
  rw [round_intCast]
  norm_num

theorem format3_zero : format3 0 = "0.000" := by
  have h : round ((1000 : ℚ) * 0) = (0 : ℤ) := by norm_num
  simp only [format3]
  rw [h]
  rfl

/-- C7: for `linear(2)` with the default `α = 0`, `β = -1`, the built matrix
is `[[0, -1], [-1, 0]]`, its eigenvalues are exactly `{1, -1}`, the
degeneracy table is the header row followed by `[-1.0, 1]` and `[1.0, 1]`,
and the sum-check value formats to `"0.000"`. -/
theorem claim_C7_linear_two_example :
    Huckel_Solver_linear_n_polyene 2 alpha beta 0 0 = 0 ∧
    Huckel_Solver_linear_n_polyene 2 alpha beta 0 1 = -1 ∧
    Huckel_Solver_linear_n_polyene 2 alpha beta 1 0 = -1 ∧
    Huckel_Solver_linear_n_polyene 2 alpha beta 1 1 = 0 ∧
    (∀ x : ℚ, is_eigenvalue (Huckel_Solver_linear_n_polyene 2 alpha beta) 2 x ↔
      (x = 1 ∨ x = -1)) ∧
    Degeneracy_count [-1, 1] = (("Energy", "Degeneracy"), [(-1, 1), (1, 1)]) ∧
    format3 (([-1, 1] : List ℚ).sum) = "0.000" :=
  ⟨M2_entry_00, M2_entry_01, M2_entry_10, M2_entry_11, M2_eigenvalues,
   by
     have h : (([-1, 1] : List ℚ).map round3) = [-1, 1] := by
       simp [round3_neg_one, round3_one]
     simp only [Degeneracy_count, degen_rows]
     rw [h]
     decide,
   by
     rw [show (([-1, 1] : List ℚ).sum) = 0 by norm_num]
     exact format3_zero⟩
